import Mathlib

/-!
# Verification of `drake/systems/framework/event_collection.h`

A shallow embedding of the event-collection data structures of the Drake
systems framework, together with proofs of the specified properties.

The C++ code stores events in heap-allocated `LeafEventCollection` objects;
`DiagramEventCollection` holds raw pointers to child collections, and
`DiagramCompositeEventCollection` intentionally aliases: its per-kind
`DiagramEventCollection` slots point into the per-kind collections owned by
its child bundles.  To model this pointer aliasing faithfully, leaf storage
is an explicit heap (`Nat → List Event`, address to owned event sequence),
and every collection object is described by its pointer structure: a leaf
collection is an address, a diagram collection is a list of child slots,
each slot either a null pointer or a pointer to a child structure.

Operations return `Except Err Unit × Heap`: the heap component is the store
at the moment the operation finishes or fails (C++ exceptions unwind, so
mutations made before a failure persist), and the error component separates
catchable C++ exceptions (`std::logic_error`, `std::bad_cast`) from fatal
outcomes (`DRAKE_DEMAND` failure, which aborts the process, and null-pointer
dereference, which is undefined behavior).
-/

namespace DrakeEvents

/-- Trigger classification of an event.  Modelled from the spec: the event
class itself (drake/systems/framework/event.h) is outside the given source;
the spec says an event "carries a trigger classification drawn from a small
closed set (at minimum: periodic, per-step, forced)". -/
inductive TriggerType where
  | kPeriodic
  | kPerStep
  | kForced
deriving DecidableEq, Repr

/-- Modelled from the spec: an event carries a trigger classification and
optional attribute / data / callback payload; its `Clone` operation
"produces an independent copy with identical classification and behavior".
The payload fields are opaque (modelled as optional numbers). -/
structure Event where
  trigger : TriggerType
  attributeVal : Option Nat
  dataVal : Option Nat
  callbackVal : Option Nat
deriving DecidableEq, Repr

/-- Modelled from the spec: `Clone` produces an independent copy with
identical classification, payload and behavior. -/
def Event.clone (e : Event) : Event :=
  { trigger := e.trigger, attributeVal := e.attributeVal,
    dataVal := e.dataVal, callbackVal := e.callbackVal }

/-- The heap: each address holds the owned event sequence of one
`LeafEventCollection` (its `owned_events_` / `events_` vectors, which always
list the same events in the same order). -/
def Heap : Type := Nat → List Event

/-- Heap update at one address. -/
def hupdate (h : Heap) (a : Nat) (v : List Event) : Heap :=
  fun x => if x = a then v else h x

/-- Outcome of an operation.  `invalidOperation` models a thrown
`std::logic_error` and `badCast` a thrown `std::bad_cast` (both catchable
C++ exceptions); `demandFail` models a failed `DRAKE_DEMAND`, which is
documented in the spec as an unrecoverable process abort; `nullDeref`
models dereferencing an unpopulated (null) child slot, undefined behavior. -/
inductive Err where
  | invalidOperation
  | badCast
  | demandFail
  | nullDeref
deriving DecidableEq, Repr

/-- Whether a failure is a catchable C++ exception (as opposed to a process
abort or undefined behavior). -/
def Err.catchable : Err → Bool
  | .invalidOperation => true
  | .badCast => true
  | .demandFail => false
  | .nullDeref => false

/-- Result of a mutating operation: error status plus the heap at the moment
the operation returned or the exception escaped. -/
def MRes : Type := Except Err Unit × Heap

/-- Sequencing with exception semantics: if the first step failed, the
failure escapes and the heap stays as the first step left it. -/
def seqM (r : MRes) (f : Heap → MRes) : MRes :=
  match r with
  | (.ok _, h) => f h
  | (.error e, h) => (.error e, h)

/-- Pointer structure of an `EventCollection<EventType>` object:
`leaf addr` is a `LeafEventCollection` whose event storage is heap cell
`addr`; `diagram slots` is a `DiagramEventCollection` whose
`subevent_collection_` vector holds, per subsystem, either a null pointer
(`none`, the state right after construction) or a pointer to a child
collection (`some c`). -/
inductive EventCollection where
  | leaf (addr : Nat)
  | diagram (slots : List (Option EventCollection))

namespace EventCollection

/-- `DiagramEventCollection(int num_subsystems)`: "only resizes the
containers; it does not allocate any derived EventCollection instances" —
all child slots start as null pointers. -/
def diagramCtor (n : Nat) : EventCollection :=
  .diagram (List.replicate n none)

/-- `DiagramEventCollection::num_subsystems`: the size of the slot vector
(on a leaf collection the method does not exist; the model returns 0). -/
def num_subsystems : EventCollection → Nat
  | .leaf _ => 0
  | .diagram slots => slots.length

/-- `DiagramEventCollection::get_subevent_collection(index)` (pointer
structure only): `none` when the index is out of range (a `DRAKE_DEMAND`
failure), `some none` when the slot is an unpopulated null pointer,
`some (some c)` when the slot points at child structure `c`.  On a leaf
collection the method does not exist (`none`). -/
def subSlot : EventCollection → Nat → Option (Option EventCollection)
  | .leaf _, _ => none
  | .diagram slots, i => slots.get? i

/-- The collection reached through `get_subevent_collection(i)` when the
receiver is a diagram collection, `i` is in range, and the slot is
populated (the defaults are never reached under those preconditions). -/
def subSlotD (t : EventCollection) (i : Nat) : EventCollection :=
  ((subSlot t i).getD none).getD (.diagram [])

/-- `DiagramEventCollection::set_subevent_collection(index, ptr)`:
installs a (borrowed) pointer at the slot.  The C++ DRAKE_DEMANDs that the
pointer is non-null (always true in the model: `c` is a structure) and that
the index is in range; out of range leaves the object unchanged here, the
real code aborts. -/
def set_subevent_collection : EventCollection → Nat → EventCollection → EventCollection
  | .leaf a, _, _ => .leaf a
  | .diagram slots, i, c => .diagram (slots.set i (some c))

mutual

/-- `EventCollection::HasEvents`.  Leaf: `!events_.empty()`.  Diagram:
loops over the subevent collections, dereferencing each pointer in turn and
returning true as soon as one has events (dereferencing a null slot is
undefined behavior, `Err.nullDeref`). -/
def HasEvents : EventCollection → Heap → Except Err Bool
  | .leaf a, h => .ok (!(h a).isEmpty)
  | .diagram slots, h => hasAnySlots slots h

/-- The loop body of `DiagramEventCollection::HasEvents`. -/
def hasAnySlots : List (Option EventCollection) → Heap → Except Err Bool
  | [], _ => .ok false
  | none :: _, _ => .error .nullDeref
  | some c :: rest, h =>
    match HasEvents c h with
    | .ok true => .ok true
    | .ok false => hasAnySlots rest h
    | .error e => .error e

end

mutual

/-- `EventCollection::Clear`.  Leaf: empties `owned_events_` and `events_`.
Diagram: dereferences each subevent pointer in order and clears it. -/
def Clear : EventCollection → Heap → MRes
  | .leaf a, h => (.ok (), hupdate h a [])
  | .diagram slots, h => clearSlots slots h

/-- The loop body of `DiagramEventCollection::Clear`. -/
def clearSlots : List (Option EventCollection) → Heap → MRes
  | [], h => (.ok (), h)
  | none :: _, h => (.error .nullDeref, h)
  | some c :: rest, h => seqM (Clear c h) (fun h1 => clearSlots rest h1)

end

/-- `EventCollection::add_event`.  Leaf (`LeafEventCollection::add_event`):
DRAKE_DEMANDs the event is non-null (always true in the model) and appends,
taking ownership.  Diagram (`DiagramEventCollection::add_event`): throws
`std::logic_error("DiagramEventCollection::add_event is not allowed")`. -/
def add_event : EventCollection → Event → Heap → MRes
  | .leaf a, e, h => (.ok (), hupdate h a (h a ++ [e]))
  | .diagram _, _, h => (.error .invalidOperation, h)

/-- `LeafEventCollection::get_events`: the ordered read-only view of the
stored events. -/
def get_events (a : Nat) (h : Heap) : List Event := h a

mutual

/-- `EventCollection::AddToEnd`, which delegates to the virtual
`DoAddToEnd`.  Leaf receiver (`LeafEventCollection::DoAddToEnd`): casts the
operand to `LeafEventCollection` (`std::bad_cast` if it is a diagram
collection) and appends a clone of each of the operand's events.  Diagram
receiver (`DiagramEventCollection::DoAddToEnd`): casts the operand to
`DiagramEventCollection` (`std::bad_cast` if it is a leaf collection),
DRAKE_DEMANDs equal subsystem counts — a fatal abort on mismatch, checked
before any mutation — then recurses per child slot, dereferencing both
sides' pointers (null is undefined behavior).

The C++ loop reads the operand's event vector by reference while appending;
for two distinct objects this equals snapshotting the operand's events
first, which is what the model does.  (`this->AddToEnd(*this)` on one leaf
object invalidates the iterator it is walking — undefined behavior in C++ —
so no theorem below concerns a self-merge.) -/
def AddToEnd : EventCollection → EventCollection → Heap → MRes
  | .leaf a, .leaf b, h => (.ok (), hupdate h a (h a ++ (h b).map Event.clone))
  | .leaf _, .diagram _, h => (.error .badCast, h)
  | .diagram _, .leaf _, h => (.error .badCast, h)
  | .diagram s1, .diagram s2, h =>
    if s1.length = s2.length then addSlots s1 s2 h else (.error .demandFail, h)

/-- The loop body of `DiagramEventCollection::DoAddToEnd`:
`subevent_collection_[i]->AddToEnd(other.get_subevent_collection(i))`. -/
def addSlots : List (Option EventCollection) → List (Option EventCollection) → Heap → MRes
  | [], _, h => (.ok (), h)
  | _ :: _, [], h => (.ok (), h)
  | none :: _, _ :: _, h => (.error .nullDeref, h)
  | some _ :: _, none :: _, h => (.error .nullDeref, h)
  | some c :: r1, some o :: r2, h => seqM (AddToEnd c o h) (fun h1 => addSlots r1 r2 h1)

end

/-- `EventCollection::SetFrom`: `Clear(); AddToEnd(other);`. -/
def SetFrom (t o : EventCollection) (h : Heap) : MRes :=
  seqM (Clear t h) (fun h1 => AddToEnd t o h1)

/-- `LeafEventCollection::MakeForcedEventCollection`: allocates a fresh
empty `LeafEventCollection` (at the fresh address `a` the allocator
returned; construction leaves its storage empty) and adds one event
constructed with `EventType(TriggerType::kForced)` — no attribute, data or
callback. -/
def MakeForcedEventCollection (a : Nat) (h : Heap) : EventCollection × Heap :=
  let h0 := hupdate h a []
  let e : Event := { trigger := .kForced, attributeVal := none,
                     dataVal := none, callbackVal := none }
  (.leaf a, (add_event (.leaf a) e h0).2)

mutual

/-- Population invariant of a collection structure: every diagram slot,
recursively, has been filled with a (non-null) child pointer via
`set_subevent_collection` / `set_and_own_subevent_collection`. -/
def populatedB : EventCollection → Bool
  | .leaf _ => true
  | .diagram slots => populatedSlots slots

/-- Population of a slot list. -/
def populatedSlots : List (Option EventCollection) → Bool
  | [] => true
  | none :: _ => false
  | some c :: rest => populatedB c && populatedSlots rest

end

mutual

/-- The addresses of all leaf collections reachable from a collection
structure (its transitively owned or borrowed leaf storage), in traversal
order; unpopulated slots contribute nothing. -/
def leafAddrs : EventCollection → List Nat
  | .leaf a => [a]
  | .diagram slots => leafAddrsSlots slots

/-- Leaf addresses of a slot list. -/
def leafAddrsSlots : List (Option EventCollection) → List Nat
  | [] => []
  | none :: rest => leafAddrsSlots rest
  | some c :: rest => leafAddrs c ++ leafAddrsSlots rest

end

mutual

/-- Shape compatibility of a receiver/operand pair for `AddToEnd`: both
leaves, or both diagrams of the same length with every slot populated and
recursively compatible (the "exact same topology" assumption documented on
`DiagramEventCollection::DoAddToEnd`). -/
def compatible : EventCollection → EventCollection → Bool
  | .leaf _, .leaf _ => true
  | .diagram s1, .diagram s2 => compatSlots s1 s2
  | _, _ => false

/-- Pointwise compatibility of two slot lists of equal length. -/
def compatSlots : List (Option EventCollection) → List (Option EventCollection) → Bool
  | [], [] => true
  | some c :: r1, some o :: r2 => compatible c o && compatSlots r1 r2
  | _, _ => false

end

mutual

/-- For a compatible receiver/operand pair, the list of matched leaf-address
pairs `(receiver leaf, operand leaf)`, in traversal order. -/
def leafPairs : EventCollection → EventCollection → List (Nat × Nat)
  | .leaf a, .leaf b => [(a, b)]
  | .diagram s1, .diagram s2 => pairSlots s1 s2
  | _, _ => []

/-- Matched leaf pairs of two slot lists. -/
def pairSlots : List (Option EventCollection) → List (Option EventCollection) → List (Nat × Nat)
  | some c :: r1, some o :: r2 => leafPairs c o ++ pairSlots r1 r2
  | _, _ => []

end

/-- First match in an association list of address pairs. -/
def lookupFst : List (Nat × Nat) → Nat → Option Nat
  | [], _ => none
  | (x, y) :: rest, a => if a = x then some y else lookupFst rest a

/-- The heap produced by a successful merge along the matched leaf pairs:
each receiver leaf gains clones of its partner's events at the end; every
other cell is untouched. -/
def mergedHeap (pairs : List (Nat × Nat)) (h : Heap) : Heap :=
  fun a =>
    match lookupFst pairs a with
    | some y => h a ++ (h y).map Event.clone
    | none => h a

/-- The heap produced by a successful `Clear`: every cell in `as` is empty,
every other cell untouched. -/
def clearedHeap (as : List Nat) (h : Heap) : Heap :=
  fun a => if a ∈ as then [] else h a

mutual

/-- The value of `HasEvents` when every dereference succeeds: a leaf has
events iff its cell is nonempty, a diagram iff some child does. -/
def hasEventsB (h : Heap) : EventCollection → Bool
  | .leaf a => !(h a).isEmpty
  | .diagram slots => hasEventsSlotsB h slots

/-- `hasEventsB` over a slot list (an unpopulated slot counts as no
events). -/
def hasEventsSlotsB (h : Heap) : List (Option EventCollection) → Bool
  | [] => false
  | none :: rest => hasEventsSlotsB h rest
  | some c :: rest => hasEventsB h c || hasEventsSlotsB h rest

end

/-- The boolean answer of `EventCollection.HasEvents`, reading a failed
dereference as `false` (used only to state properties; under the population
invariant `HasEvents` never fails). -/
def hasEventsResult (c : EventCollection) (h : Heap) : Bool :=
  match HasEvents c h with
  | .ok b => b
  | .error _ => false

mutual

/-- A node together with all collections reachable from it through
(populated) child slots. -/
def descendants : EventCollection → List EventCollection
  | .leaf a => [.leaf a]
  | .diagram slots => .diagram slots :: descSlots slots

/-- `descendants` over a slot list. -/
def descSlots : List (Option EventCollection) → List EventCollection
  | [] => []
  | none :: rest => descSlots rest
  | some c :: rest => descendants c ++ descSlots rest

end

end EventCollection

/-! ## The heterogeneous bundles: `CompositeEventCollection` and friends -/

open EventCollection

/-- One of the three event kinds bundled by a `CompositeEventCollection`. -/
inductive EventKind where
  | publish
  | discreteUpdate
  | unrestrictedUpdate
deriving DecidableEq, Repr

/-- The state of a `CompositeEventCollection<T>`: one homogeneous collection
per event kind (`publish_events_`, `discrete_update_events_`,
`unrestricted_update_events_`; never null — the constructor DRAKE_DEMANDs
that). -/
structure CompositeEventCollection where
  publish_events : EventCollection
  discrete_update_events : EventCollection
  unrestricted_update_events : EventCollection

namespace CompositeEventCollection

/-- The per-kind homogeneous collection of a bundle. -/
def kindCollection (c : CompositeEventCollection) : EventKind → EventCollection
  | .publish => c.publish_events
  | .discreteUpdate => c.discrete_update_events
  | .unrestrictedUpdate => c.unrestricted_update_events

/-- `CompositeEventCollection::Clear`: clears the three per-kind collections
in order. -/
def Clear (c : CompositeEventCollection) (h : Heap) : MRes :=
  seqM (c.publish_events.Clear h) (fun h1 =>
    seqM (c.discrete_update_events.Clear h1) (fun h2 =>
      c.unrestricted_update_events.Clear h2))

/-- `CompositeEventCollection::HasEvents`: the short-circuit disjunction of
the three per-kind `HasEvents` calls. -/
def HasEvents (c : CompositeEventCollection) (h : Heap) : Except Err Bool :=
  match c.publish_events.HasEvents h with
  | .error e => .error e
  | .ok true => .ok true
  | .ok false =>
    match c.discrete_update_events.HasEvents h with
    | .error e => .error e
    | .ok true => .ok true
    | .ok false => c.unrestricted_update_events.HasEvents h

/-- `CompositeEventCollection::add_publish_event`: DRAKE_DEMANDs a non-null
event (always true in the model), casts the publish collection to
`LeafEventCollection` (`std::bad_cast` if it is a diagram collection) and
adds the event to it. -/
def add_publish_event (c : CompositeEventCollection) (e : Event) (h : Heap) : MRes :=
  match c.publish_events with
  | .leaf a => add_event (.leaf a) e h
  | .diagram _ => (.error .badCast, h)

/-- `CompositeEventCollection::add_discrete_update_event`. -/
def add_discrete_update_event (c : CompositeEventCollection) (e : Event) (h : Heap) : MRes :=
  match c.discrete_update_events with
  | .leaf a => add_event (.leaf a) e h
  | .diagram _ => (.error .badCast, h)

/-- `CompositeEventCollection::add_unrestricted_update_event`. -/
def add_unrestricted_update_event (c : CompositeEventCollection) (e : Event) (h : Heap) : MRes :=
  match c.unrestricted_update_events with
  | .leaf a => add_event (.leaf a) e h
  | .diagram _ => (.error .badCast, h)

/-- `CompositeEventCollection::AddToEnd`: per-kind `AddToEnd`, publish then
discrete then unrestricted. -/
def AddToEnd (c o : CompositeEventCollection) (h : Heap) : MRes :=
  seqM (c.publish_events.AddToEnd o.publish_events h) (fun h1 =>
    seqM (c.discrete_update_events.AddToEnd o.discrete_update_events h1) (fun h2 =>
      c.unrestricted_update_events.AddToEnd o.unrestricted_update_events h2))

/-- `CompositeEventCollection::SetFrom`: per-kind `SetFrom`, publish then
discrete then unrestricted. -/
def SetFrom (c o : CompositeEventCollection) (h : Heap) : MRes :=
  seqM (c.publish_events.SetFrom o.publish_events h) (fun h1 =>
    seqM (c.discrete_update_events.SetFrom o.discrete_update_events h1) (fun h2 =>
      c.unrestricted_update_events.SetFrom o.unrestricted_update_events h2))

end CompositeEventCollection

/-- `LeafCompositeEventCollection` constructor: allocates three fresh empty
`LeafEventCollection`s (at the allocator-returned addresses `pa`, `da`,
`ua`; construction leaves each storage cell empty). -/
def LeafCompositeEventCollection.ctor (pa da ua : Nat) (h : Heap) :
    CompositeEventCollection × Heap :=
  (⟨.leaf pa, .leaf da, .leaf ua⟩,
   hupdate (hupdate (hupdate h pa []) da []) ua [])

/-- The state of a `DiagramCompositeEventCollection<T>`: the owned child
bundles, in subsystem order. -/
structure DiagramCompositeEventCollection where
  owned_subevent_collection : List CompositeEventCollection

namespace DiagramCompositeEventCollection

/-- `DiagramCompositeEventCollection::num_subsystems`. -/
def num_subsystems (d : DiagramCompositeEventCollection) : Nat :=
  d.owned_subevent_collection.length

/-- `DiagramCompositeEventCollection::get_subevent_collection(index)`
(structure only; the C++ DRAKE_DEMANDs the index is in range). -/
def get_subevent_collection (d : DiagramCompositeEventCollection) (i : Nat) :
    Option CompositeEventCollection :=
  d.owned_subevent_collection.get? i

/-- The bundle view built by the `DiagramCompositeEventCollection`
constructor: for each kind it creates a `DiagramEventCollection` sized to
the number of children and then, for each child index `i`, calls
`set_subevent_collection(i, &child_i's same-kind collection)` — slot `i`
holds a pointer to (not a copy of) the collection inside owned child bundle
`i`, "the same pointer structure, but does not duplicate actual data". -/
def toComposite (d : DiagramCompositeEventCollection) : CompositeEventCollection :=
  { publish_events :=
      .diagram (d.owned_subevent_collection.map (fun c => some c.publish_events)),
    discrete_update_events :=
      .diagram (d.owned_subevent_collection.map (fun c => some c.discrete_update_events)),
    unrestricted_update_events :=
      .diagram (d.owned_subevent_collection.map (fun c => some c.unrestricted_update_events)) }

end DiagramCompositeEventCollection

/-! ## Concrete objects used by the witness theorems -/

/-- A periodic example event. -/
def exE1 : Event := ⟨.kPeriodic, none, none, none⟩

/-- A per-step example event with an attribute. -/
def exE2 : Event := ⟨.kPerStep, some 5, none, none⟩

/-- A forced example event with data. -/
def exE3 : Event := ⟨.kForced, none, some 7, none⟩

/-- Example heap: cell 0 holds `[exE1, exE2]`, cell 1 holds `[exE3]`. -/
def exHeap : Heap := fun a =>
  if a = 0 then [exE1, exE2] else if a = 1 then [exE3] else []

/-- The everywhere-empty heap. -/
def exHeap0 : Heap := fun _ => []

/-- Example structural bundle over two leaf child bundles (cells 0-5). -/
def exBundle2 : DiagramCompositeEventCollection :=
  ⟨[⟨.leaf 0, .leaf 1, .leaf 2⟩, ⟨.leaf 3, .leaf 4, .leaf 5⟩]⟩

/-! ## Characterization lemmas for the homogeneous operations -/

namespace EventCollection

theorem clearedHeap_nil (h : Heap) : clearedHeap [] h = h := by
  funext x
  simp [clearedHeap]

theorem clearedHeap_append (as bs : List Nat) (h : Heap) :
    clearedHeap bs (clearedHeap as h) = clearedHeap (as ++ bs) h := by
  funext x
  by_cases hxa : x ∈ as <;> by_cases hxb : x ∈ bs <;>
    simp [clearedHeap, hxa, hxb]

mutual

/-- `Clear` on a fully populated collection succeeds and empties exactly the
reachable leaf cells. -/
theorem clear_spec (t : EventCollection) (h : Heap) (hp : populatedB t = true) :
    Clear t h = (.ok (), clearedHeap (leafAddrs t) h) := by
  match t with
  | .leaf a =>
    refine Prod.ext rfl ?_
    funext x
    simp [Clear, clearedHeap, leafAddrs, hupdate]
  | .diagram slots =>
    simp only [populatedB] at hp
    simpa [Clear, leafAddrs] using clearSlots_spec slots h hp

/-- `clear_spec` for the loop of `DiagramEventCollection::Clear`. -/
theorem clearSlots_spec (slots : List (Option EventCollection)) (h : Heap)
    (hp : populatedSlots slots = true) :
    clearSlots slots h = (.ok (), clearedHeap (leafAddrsSlots slots) h) := by
  match slots with
  | [] =>
    simp [clearSlots, leafAddrsSlots, clearedHeap_nil]
  | none :: rest => simp [populatedSlots] at hp
  | some c :: rest =>
    simp only [populatedSlots, Bool.and_eq_true] at hp
    have h1 := clear_spec c h hp.1
    have h2 := clearSlots_spec rest (clearedHeap (leafAddrs c) h) hp.2
    simp only [clearSlots, h1, seqM, h2, leafAddrsSlots]
    rw [clearedHeap_append]

end

mutual

/-- `HasEvents` on a fully populated collection succeeds and returns the
recursive disjunction `hasEventsB`. -/
theorem hasEvents_spec (t : EventCollection) (h : Heap) (hp : populatedB t = true) :
    HasEvents t h = .ok (hasEventsB h t) := by
  match t with
  | .leaf a => rfl
  | .diagram slots =>
    simp only [populatedB] at hp
    simpa [HasEvents, hasEventsB] using hasAnySlots_spec slots h hp

/-- `hasEvents_spec` for the loop of `DiagramEventCollection::HasEvents`. -/
theorem hasAnySlots_spec (slots : List (Option EventCollection)) (h : Heap)
    (hp : populatedSlots slots = true) :
    hasAnySlots slots h = .ok (hasEventsSlotsB h slots) := by
  match slots with
  | [] => rfl
  | none :: rest => simp [populatedSlots] at hp
  | some c :: rest =>
    simp only [populatedSlots, Bool.and_eq_true] at hp
    have h1 := hasEvents_spec c h hp.1
    have h2 := hasAnySlots_spec rest h hp.2
    simp only [hasAnySlots, h1, hasEventsSlotsB]
    cases hb : hasEventsB h c <;> simp [h2]

end

mutual

/-- A collection whose reachable leaf cells are all cleared has no
events. -/
theorem hasEventsB_cleared (t : EventCollection) (as : List Nat) (h : Heap)
    (hsub : ∀ a ∈ leafAddrs t, a ∈ as) :
    hasEventsB (clearedHeap as h) t = false := by
  match t with
  | .leaf a =>
    have : a ∈ as := hsub a (by simp [leafAddrs])
    simp [hasEventsB, clearedHeap, this]
  | .diagram slots =>
    simp only [leafAddrs] at hsub
    simpa [hasEventsB] using hasEventsSlotsB_cleared slots as h hsub

/-- `hasEventsB_cleared` for slot lists. -/
theorem hasEventsSlotsB_cleared (slots : List (Option EventCollection))
    (as : List Nat) (h : Heap)
    (hsub : ∀ a ∈ leafAddrsSlots slots, a ∈ as) :
    hasEventsSlotsB (clearedHeap as h) slots = false := by
  match slots with
  | [] => rfl
  | none :: rest =>
    simp only [leafAddrsSlots] at hsub
    simpa [hasEventsSlotsB] using hasEventsSlotsB_cleared rest as h hsub
  | some c :: rest =>
    simp only [leafAddrsSlots] at hsub
    have h1 := hasEventsB_cleared c as h (fun a ha => hsub a (by simp [ha]))
    have h2 := hasEventsSlotsB_cleared rest as h (fun a ha => hsub a (by simp [ha]))
    simp [hasEventsSlotsB, h1, h2]

end

theorem lookupFst_eq_none (p : List (Nat × Nat)) (a : Nat)
    (ha : a ∉ p.map Prod.fst) : lookupFst p a = none := by
  induction p with
  | nil => rfl
  | cons hd tl ih =>
    simp only [List.map_cons, List.mem_cons, not_or] at ha
    simp [lookupFst, ha.1, ih ha.2]

theorem lookupFst_mem_fst (p : List (Nat × Nat)) (a y : Nat)
    (hl : lookupFst p a = some y) : a ∈ p.map Prod.fst := by
  induction p with
  | nil => simp [lookupFst] at hl
  | cons hd tl ih =>
    simp only [lookupFst] at hl
    by_cases hax : a = hd.1
    · simp [hax]
    · simp only [hax, if_false] at hl
      simp [ih hl]

theorem lookupFst_mem_snd (p : List (Nat × Nat)) (a y : Nat)
    (hl : lookupFst p a = some y) : y ∈ p.map Prod.snd := by
  induction p with
  | nil => simp [lookupFst] at hl
  | cons hd tl ih =>
    simp only [lookupFst] at hl
    by_cases hax : a = hd.1
    · simp only [hax, if_true, Option.some.injEq] at hl
      simp [← hl]
    · simp only [hax, if_false] at hl
      simp [ih hl]

theorem lookupFst_append (p1 p2 : List (Nat × Nat)) (a : Nat) :
    lookupFst (p1 ++ p2) a =
      match lookupFst p1 a with
      | some y => some y
      | none => lookupFst p2 a := by
  induction p1 with
  | nil => simp [lookupFst]
  | cons hd tl ih =>
    by_cases hax : a = hd.1 <;> simp [lookupFst, hax, ih]

/-- With a nodup key list, `lookupFst` finds exactly the member pair. -/
theorem lookupFst_of_mem (p : List (Nat × Nat)) (x y : Nat)
    (hmem : (x, y) ∈ p) (hnd : (p.map Prod.fst).Nodup) :
    lookupFst p x = some y := by
  induction p with
  | nil => simp at hmem
  | cons hd tl ih =>
    simp only [List.map_cons, List.nodup_cons] at hnd
    rcases List.mem_cons.mp hmem with heq | htl
    · simp [lookupFst, ← heq]
    · have hx : x ≠ hd.1 := by
        intro hx
        exact hnd.1 (hx ▸ (List.mem_map.mpr ⟨(x, y), htl, rfl⟩))
      simp [lookupFst, hx, ih htl hnd.2]

theorem mergedHeap_nil (h : Heap) : mergedHeap [] h = h := by
  funext a
  simp [mergedHeap, lookupFst]

/-- Two successive merges along pair lists with disjoint write sets, the
second not reading what the first wrote, fuse into one merge. -/
theorem mergedHeap_append (p1 p2 : List (Nat × Nat)) (h : Heap)
    (hff : List.Disjoint (p1.map Prod.fst) (p2.map Prod.fst))
    (hsf : List.Disjoint (p2.map Prod.snd) (p1.map Prod.fst)) :
    mergedHeap p2 (mergedHeap p1 h) = mergedHeap (p1 ++ p2) h := by
  funext a
  simp only [mergedHeap, lookupFst_append]
  cases hl1 : lookupFst p1 a with
  | some y =>
    have ha1 : a ∈ p1.map Prod.fst := lookupFst_mem_fst p1 a y hl1
    have ha2 : a ∉ p2.map Prod.fst := fun hmem => hff ha1 hmem
    simp [lookupFst_eq_none p2 a ha2, hl1]
  | none =>
    cases hl2 : lookupFst p2 a with
    | some y =>
      have hy : y ∈ p2.map Prod.snd := lookupFst_mem_snd p2 a y hl2
      have hy1 : y ∉ p1.map Prod.fst := fun hmem => hsf hy hmem
      simp [hl1, lookupFst_eq_none p1 y hy1]
    | none => simp [hl1]

/-- Clearing cells that a merge neither writes nor reads commutes with the
merge. -/
theorem mergedHeap_clearedHeap_comm (p : List (Nat × Nat)) (as : List Nat)
    (h : Heap)
    (haf : List.Disjoint as (p.map Prod.fst))
    (has : List.Disjoint as (p.map Prod.snd)) :
    mergedHeap p (clearedHeap as h) = clearedHeap as (mergedHeap p h) := by
  funext a
  by_cases hmem : a ∈ as
  · have hf : a ∉ p.map Prod.fst := fun hx => haf hmem hx
    simp [mergedHeap, clearedHeap, hmem, lookupFst_eq_none p a hf]
  · simp only [mergedHeap, clearedHeap, hmem, if_false]
    cases hl : lookupFst p a with
    | some y =>
      have hy : y ∈ p.map Prod.snd := lookupFst_mem_snd p a y hl
      have hys : y ∉ as := fun hx => has hx hy
      simp [hys]
    | none => rfl

theorem compatSlots_length :
    ∀ (s1 s2 : List (Option EventCollection)),
      compatSlots s1 s2 = true → s1.length = s2.length
  | [], [], _ => rfl
  | [], _ :: _, hc => by simp [compatSlots] at hc
  | _ :: _, [], hc => by simp [compatSlots] at hc
  | none :: _, _ :: _, hc => by simp [compatSlots] at hc
  | some _ :: _, none :: _, hc => by simp [compatSlots] at hc
  | some c :: r1, some o :: r2, hc => by
    simp only [compatSlots, Bool.and_eq_true] at hc
    simp [compatSlots_length r1 r2 hc.2]

mutual

/-- For a compatible pair, the receiver sides of the matched leaf pairs are
exactly the receiver's leaf addresses. -/
theorem pairs_fst (t o : EventCollection) (hc : compatible t o = true) :
    (leafPairs t o).map Prod.fst = leafAddrs t := by
  match t, o with
  | .leaf a, .leaf b => simp [leafPairs, leafAddrs]
  | .leaf _, .diagram _ => simp [compatible] at hc
  | .diagram _, .leaf _ => simp [compatible] at hc
  | .diagram s1, .diagram s2 =>
    simp only [compatible] at hc
    simpa [leafPairs, leafAddrs] using pairSlots_fst s1 s2 hc

/-- `pairs_fst` for slot lists. -/
theorem pairSlots_fst (s1 s2 : List (Option EventCollection))
    (hc : compatSlots s1 s2 = true) :
    (pairSlots s1 s2).map Prod.fst = leafAddrsSlots s1 := by
  match s1, s2 with
  | [], [] => rfl
  | [], _ :: _ => simp [compatSlots] at hc
  | _ :: _, [] => simp [compatSlots] at hc
  | none :: _, _ :: _ => simp [compatSlots] at hc
  | some _ :: _, none :: _ => simp [compatSlots] at hc
  | some c :: r1, some o :: r2 =>
    simp only [compatSlots, Bool.and_eq_true] at hc
    simp [pairSlots, leafAddrsSlots, pairs_fst c o hc.1, pairSlots_fst r1 r2 hc.2]

end

mutual

/-- For a compatible pair, the operand sides of the matched leaf pairs are
exactly the operand's leaf addresses. -/
theorem pairs_snd (t o : EventCollection) (hc : compatible t o = true) :
    (leafPairs t o).map Prod.snd = leafAddrs o := by
  match t, o with
  | .leaf a, .leaf b => simp [leafPairs, leafAddrs]
  | .leaf _, .diagram _ => simp [compatible] at hc
  | .diagram _, .leaf _ => simp [compatible] at hc
  | .diagram s1, .diagram s2 =>
    simp only [compatible] at hc
    simpa [leafPairs, leafAddrs] using pairSlots_snd s1 s2 hc

/-- `pairs_snd` for slot lists. -/
theorem pairSlots_snd (s1 s2 : List (Option EventCollection))
    (hc : compatSlots s1 s2 = true) :
    (pairSlots s1 s2).map Prod.snd = leafAddrsSlots s2 := by
  match s1, s2 with
  | [], [] => rfl
  | [], _ :: _ => simp [compatSlots] at hc
  | _ :: _, [] => simp [compatSlots] at hc
  | none :: _, _ :: _ => simp [compatSlots] at hc
  | some _ :: _, none :: _ => simp [compatSlots] at hc
  | some c :: r1, some o :: r2 =>
    simp only [compatSlots, Bool.and_eq_true] at hc
    simp [pairSlots, leafAddrsSlots, pairs_snd c o hc.1, pairSlots_snd r1 r2 hc.2]

end

mutual

/-- The central merge lemma: for a shape-compatible pair whose receiver leaf
storage cells are pairwise distinct and disjoint from the operand's,
`AddToEnd` succeeds and each receiver leaf gains clones of its matched
operand leaf's events at the end, all other cells untouched. -/
theorem addToEnd_spec (t o : EventCollection) (h : Heap)
    (hc : compatible t o = true)
    (hnd : (leafAddrs t).Nodup)
    (hdj : List.Disjoint (leafAddrs t) (leafAddrs o)) :
    AddToEnd t o h = (.ok (), mergedHeap (leafPairs t o) h) := by
  match t, o with
  | .leaf a, .leaf b =>
    refine Prod.ext rfl ?_
    funext x
    by_cases hx : x = a <;> simp [AddToEnd, mergedHeap, lookupFst, leafPairs, hupdate, hx]
  | .leaf _, .diagram _ => simp [compatible] at hc
  | .diagram _, .leaf _ => simp [compatible] at hc
  | .diagram s1, .diagram s2 =>
    simp only [compatible] at hc
    have hlen := compatSlots_length s1 s2 hc
    simp only [AddToEnd, hlen, if_true, leafPairs]
    simp only [leafAddrs] at hnd hdj
    exact addSlots_spec s1 s2 h hc hnd hdj

/-- `addToEnd_spec` for the loop of `DiagramEventCollection::DoAddToEnd`. -/
theorem addSlots_spec (s1 s2 : List (Option EventCollection)) (h : Heap)
    (hc : compatSlots s1 s2 = true)
    (hnd : (leafAddrsSlots s1).Nodup)
    (hdj : List.Disjoint (leafAddrsSlots s1) (leafAddrsSlots s2)) :
    addSlots s1 s2 h = (.ok (), mergedHeap (pairSlots s1 s2) h) := by
  match s1, s2 with
  | [], [] => simp [addSlots, pairSlots, mergedHeap_nil]
  | [], _ :: _ => simp [compatSlots] at hc
  | _ :: _, [] => simp [compatSlots] at hc
  | none :: _, _ :: _ => simp [compatSlots] at hc
  | some _ :: _, none :: _ => simp [compatSlots] at hc
  | some c :: r1, some o :: r2 =>
    simp only [compatSlots, Bool.and_eq_true] at hc
    simp only [leafAddrsSlots] at hnd hdj
    rw [List.nodup_append] at hnd
    rw [List.disjoint_append_left] at hdj
    have hdc := (List.disjoint_append_right.mp hdj.1)
    have hdr := (List.disjoint_append_right.mp hdj.2)
    have hA := addToEnd_spec c o h hc.1 hnd.1 hdc.1
    have hR := addSlots_spec r1 r2 (mergedHeap (leafPairs c o) h) hc.2 hnd.2.1 hdr.2
    simp only [addSlots, hA, seqM, hR, pairSlots]
    rw [mergedHeap_append]
    · rw [pairs_fst c o hc.1, pairSlots_fst r1 r2 hc.2]
      exact hnd.2.2
    · rw [pairSlots_snd r1 r2 hc.2, pairs_fst c o hc.1]
      exact hdc.2.symm

end

mutual

/-- A descendant's leaf cells are among the root's, and it inherits the
population invariant. -/
theorem descendants_spec (t : EventCollection) (d : EventCollection)
    (hd : d ∈ descendants t) :
    (∀ a ∈ leafAddrs d, a ∈ leafAddrs t) ∧
      (populatedB t = true → populatedB d = true) := by
  match t with
  | .leaf a =>
    simp only [descendants, List.mem_singleton] at hd
    subst hd
    exact ⟨fun a ha => ha, fun hp => hp⟩
  | .diagram slots =>
    simp only [descendants, List.mem_cons] at hd
    rcases hd with heq | hmem
    · subst heq
      exact ⟨fun a ha => ha, fun hp => hp⟩
    · have := descSlots_spec slots d hmem
      exact ⟨fun a ha => this.1 a ha, fun hp => this.2 (by simpa [populatedB] using hp)⟩

/-- `descendants_spec` over a slot list. -/
theorem descSlots_spec (slots : List (Option EventCollection)) (d : EventCollection)
    (hd : d ∈ descSlots slots) :
    (∀ a ∈ leafAddrs d, a ∈ leafAddrsSlots slots) ∧
      (populatedSlots slots = true → populatedB d = true) := by
  match slots with
  | [] => simp [descSlots] at hd
  | none :: rest =>
    simp only [descSlots] at hd
    have := descSlots_spec rest d hd
    exact ⟨fun a ha => by simpa [leafAddrsSlots] using this.1 a ha,
           fun hp => by simp [populatedSlots] at hp⟩
  | some c :: rest =>
    simp only [descSlots, List.mem_append] at hd
    rcases hd with hmem | hmem
    · have := descendants_spec c d hmem
      refine ⟨fun a ha => ?_, fun hp => ?_⟩
      · simp [leafAddrsSlots, this.1 a ha]
      · simp only [populatedSlots, Bool.and_eq_true] at hp
        exact this.2 hp.1
    · have := descSlots_spec rest d hmem
      refine ⟨fun a ha => ?_, fun hp => ?_⟩
      · simp [leafAddrsSlots, this.1 a ha]
      · simp only [populatedSlots, Bool.and_eq_true] at hp
        exact this.2 hp.2

end

/-- Population of a slot list built from a list of children by `map some`. -/
theorem populatedSlots_map_some (children : List EventCollection)
    (hp : ∀ c ∈ children, populatedB c = true) :
    populatedSlots (children.map some) = true := by
  induction children with
  | nil => rfl
  | cons hd tl ih =>
    simp only [List.map_cons, populatedSlots, Bool.and_eq_true]
    exact ⟨hp hd (by simp), ih (fun c hc => hp c (by simp [hc]))⟩

/-- Population of a slot list built by wrapping images of a list, when every
image is populated. -/
theorem populatedSlots_map_comp {α : Type} (children : List α)
    (f : α → EventCollection)
    (hp : ∀ c ∈ children, populatedB (f c) = true) :
    populatedSlots (children.map (fun c => some (f c))) = true := by
  induction children with
  | nil => rfl
  | cons hd tl ih =>
    simp only [List.map_cons, populatedSlots, Bool.and_eq_true]
    exact ⟨hp hd (by simp), ih (fun c hc => hp c (by simp [hc]))⟩

/-- The events seen through a slot list built by `map some` are the
disjunction over the children. -/
theorem hasEventsSlotsB_map_some (children : List EventCollection) (h : Heap) :
    hasEventsSlotsB h (children.map some) =
      children.any (fun c => hasEventsB h c) := by
  induction children with
  | nil => rfl
  | cons hd tl ih => simp [hasEventsSlotsB, ih]

/-- The leaf cells reachable through a slot list built by `map some` are the
concatenation over the children, each child's cells appearing once. -/
theorem leafAddrsSlots_map_some {α : Type} (children : List α)
    (f : α → EventCollection) :
    leafAddrsSlots (children.map (fun c => some (f c))) =
      (children.map (fun c => leafAddrs (f c))).flatten := by
  induction children with
  | nil => rfl
  | cons hd tl ih => simp [leafAddrsSlots, ih]

/-- The spec's clone produces a copy equal (as a value) to the original. -/
theorem Event.clone_eq (e : Event) : Event.clone e = e := rfl

theorem map_clone_id (l : List Event) : l.map Event.clone = l := by
  induction l with
  | nil => rfl
  | cons hd tl ih => simp [Event.clone_eq, ih]

mutual

/-- A compatible pair is fully populated on both sides. -/
theorem compatible_populated (t o : EventCollection)
    (hc : compatible t o = true) :
    populatedB t = true ∧ populatedB o = true := by
  match t, o with
  | .leaf _, .leaf _ => exact ⟨rfl, rfl⟩
  | .leaf _, .diagram _ => simp [compatible] at hc
  | .diagram _, .leaf _ => simp [compatible] at hc
  | .diagram s1, .diagram s2 =>
    simp only [compatible] at hc
    have := compatSlots_populated s1 s2 hc
    exact ⟨by simpa [populatedB] using this.1, by simpa [populatedB] using this.2⟩

/-- `compatible_populated` for slot lists. -/
theorem compatSlots_populated (s1 s2 : List (Option EventCollection))
    (hc : compatSlots s1 s2 = true) :
    populatedSlots s1 = true ∧ populatedSlots s2 = true := by
  match s1, s2 with
  | [], [] => exact ⟨rfl, rfl⟩
  | [], _ :: _ => simp [compatSlots] at hc
  | _ :: _, [] => simp [compatSlots] at hc
  | none :: _, _ :: _ => simp [compatSlots] at hc
  | some _ :: _, none :: _ => simp [compatSlots] at hc
  | some c :: r1, some o :: r2 =>
    simp only [compatSlots, Bool.and_eq_true] at hc
    have h1 := compatible_populated c o hc.1
    have h2 := compatSlots_populated r1 r2 hc.2
    exact ⟨by simp [populatedSlots, h1.1, h2.1], by simp [populatedSlots, h1.2, h2.2]⟩

end

/-- Under the population invariant, the boolean read of `HasEvents` is the
recursive disjunction. -/
theorem hasEventsResult_eq (c : EventCollection) (h : Heap)
    (hp : populatedB c = true) : hasEventsResult c h = hasEventsB h c := by
  simp [hasEventsResult, hasEvents_spec c h hp]

end EventCollection

namespace CompositeEventCollection

open EventCollection

/-- `CompositeEventCollection::Clear` on a bundle whose three collections
are fully populated succeeds and empties exactly their leaf cells (publish
first, then discrete, then unrestricted). -/
theorem composite_clear_spec (c : CompositeEventCollection) (h : Heap)
    (hp : populatedB c.publish_events = true)
    (hd : populatedB c.discrete_update_events = true)
    (hu : populatedB c.unrestricted_update_events = true) :
    c.Clear h = (.ok (),
      clearedHeap (leafAddrs c.publish_events ++
        (leafAddrs c.discrete_update_events ++
          leafAddrs c.unrestricted_update_events)) h) := by
  simp only [Clear, clear_spec _ _ hp, seqM, clear_spec _ _ hd,
    clear_spec _ _ hu, clearedHeap_append, List.append_assoc]

/-- A fully populated bundle whose leaf cells are all among the cleared set
reports no events. -/
theorem composite_hasEvents_cleared (c : CompositeEventCollection)
    (as : List Nat) (h : Heap)
    (hp : populatedB c.publish_events = true)
    (hd : populatedB c.discrete_update_events = true)
    (hu : populatedB c.unrestricted_update_events = true)
    (hsp : ∀ a ∈ leafAddrs c.publish_events, a ∈ as)
    (hsd : ∀ a ∈ leafAddrs c.discrete_update_events, a ∈ as)
    (hsu : ∀ a ∈ leafAddrs c.unrestricted_update_events, a ∈ as) :
    c.HasEvents (clearedHeap as h) = .ok false := by
  simp only [HasEvents, hasEvents_spec _ _ hp, hasEvents_spec _ _ hd,
    hasEvents_spec _ _ hu, hasEventsB_cleared _ _ _ hsp,
    hasEventsB_cleared _ _ _ hsd, hasEventsB_cleared _ _ _ hsu]

end CompositeEventCollection

namespace EventCollection

/-- A merge leaves every cell outside its write set unchanged. -/
theorem mergedHeap_notin (p : List (Nat × Nat)) (h : Heap) (a : Nat)
    (ha : a ∉ p.map Prod.fst) : mergedHeap p h a = h a := by
  simp [mergedHeap, lookupFst_eq_none p a ha]

/-- A merge writes each matched receiver cell to the concatenation with its
partner's events (clones being value-equal to the originals). -/
theorem mergedHeap_pair (p : List (Nat × Nat)) (h : Heap) (x y : Nat)
    (hmem : (x, y) ∈ p) (hnd : (p.map Prod.fst).Nodup) :
    mergedHeap p h x = h x ++ h y := by
  simp [mergedHeap, lookupFst_of_mem p x y hmem hnd, map_clone_id]

/-- `SetFrom` on a compatible pair with distinct storage: clear the
receiver's cells, then append (clones of) the operand's events pairwise. -/
theorem setFrom_spec (t o : EventCollection) (h : Heap)
    (hc : compatible t o = true)
    (hnd : (leafAddrs t).Nodup)
    (hdj : List.Disjoint (leafAddrs t) (leafAddrs o)) :
    SetFrom t o h =
      (.ok (), mergedHeap (leafPairs t o) (clearedHeap (leafAddrs t) h)) := by
  unfold SetFrom
  rw [clear_spec t h (compatible_populated t o hc).1]
  simp only [seqM]
  rw [addToEnd_spec t o _ hc hnd hdj]

/-- Unpacking the no-shared-storage invariant for the six per-kind
collections of a bundle pair: each receiver list is nodup, and all cross
pairs are disjoint. -/
theorem nodup_six {P D U P' D' U' : List Nat}
    (hnd : ((P ++ (D ++ U)) ++ (P' ++ (D' ++ U'))).Nodup) :
    (P.Nodup ∧ D.Nodup ∧ U.Nodup) ∧
    (P.Disjoint D ∧ P.Disjoint U ∧ D.Disjoint U) ∧
    (P.Disjoint P' ∧ P.Disjoint D' ∧ P.Disjoint U') ∧
    (D.Disjoint P' ∧ D.Disjoint D' ∧ D.Disjoint U') ∧
    (U.Disjoint P' ∧ U.Disjoint D' ∧ U.Disjoint U') := by
  rw [List.nodup_append] at hnd
  obtain ⟨hL, _, hLR⟩ := hnd
  rw [List.nodup_append] at hL
  obtain ⟨hP, hDU, hPDU⟩ := hL
  rw [List.nodup_append] at hDU
  obtain ⟨hD, hU, hDU2⟩ := hDU
  rw [List.disjoint_append_right] at hPDU
  rw [List.disjoint_append_left] at hLR
  obtain ⟨hPR, hDUR⟩ := hLR
  rw [List.disjoint_append_left] at hDUR
  obtain ⟨hDR, hUR⟩ := hDUR
  rw [List.disjoint_append_right] at hPR hDR hUR
  obtain ⟨hPP', hPx⟩ := hPR
  obtain ⟨hDP', hDx⟩ := hDR
  obtain ⟨hUP', hUx⟩ := hUR
  rw [List.disjoint_append_right] at hPx hDx hUx
  exact ⟨⟨hP, hD, hU⟩, ⟨hPDU.1, hPDU.2, hDU2⟩,
    ⟨hPP', hPx.1, hPx.2⟩, ⟨hDP', hDx.1, hDx.2⟩, ⟨hUP', hUx.1, hUx.2⟩⟩

end EventCollection

namespace CompositeEventCollection

open EventCollection

/-- `CompositeEventCollection::AddToEnd` on kind-wise compatible bundles
with pairwise distinct storage merges the three kinds in order: publish,
discrete, unrestricted. -/
theorem composite_addToEnd_spec (c o : CompositeEventCollection) (h : Heap)
    (hcp : compatible c.publish_events o.publish_events = true)
    (hcd : compatible c.discrete_update_events o.discrete_update_events = true)
    (hcu : compatible c.unrestricted_update_events o.unrestricted_update_events = true)
    (hnd : ((leafAddrs c.publish_events ++
        (leafAddrs c.discrete_update_events ++
          leafAddrs c.unrestricted_update_events)) ++
      (leafAddrs o.publish_events ++
        (leafAddrs o.discrete_update_events ++
          leafAddrs o.unrestricted_update_events))).Nodup) :
    c.AddToEnd o h = (.ok (),
      mergedHeap (leafPairs c.unrestricted_update_events o.unrestricted_update_events)
        (mergedHeap (leafPairs c.discrete_update_events o.discrete_update_events)
          (mergedHeap (leafPairs c.publish_events o.publish_events) h))) := by
  obtain ⟨⟨hP, hD, hU⟩, _, ⟨hPP', _, _⟩, ⟨_, hDD', _⟩, ⟨_, _, hUU'⟩⟩ :=
    nodup_six hnd
  unfold AddToEnd
  rw [addToEnd_spec _ _ h hcp hP hPP']
  simp only [seqM]
  rw [addToEnd_spec _ _ _ hcd hD hDD']
  simp only [seqM]
  rw [addToEnd_spec _ _ _ hcu hU hUU']

end CompositeEventCollection

/-! ## The claims -/

open EventCollection

/-- Claim C1, counterexample: merging two structural collections with
different child counts (one slot vs. two) does fail before mutating
anything, but via a failed `DRAKE_DEMAND` — a process abort that the caller
cannot catch — not via a recoverable shape-mismatch error as the claim
states. -/
theorem diagram_merge_mismatch_counterexample :
    AddToEnd (.diagram [some (.leaf 0)])
        (.diagram [some (.leaf 1), some (.leaf 2)]) exHeap0
      = (.error .demandFail, exHeap0) ∧
    Err.catchable .demandFail = false := ⟨rfl, rfl⟩

/-- Claim C1, amended: for every two structural homogeneous collections with
different child counts, `AddToEnd` fails the `DRAKE_DEMAND` child-count
check — a fatal, non-catchable abort (the kind cast precedes it and
succeeds, so no catchable exception is raised) — and, the check coming
before the per-child loop, both operands' stored event sequences are
unchanged at the point of failure. -/
theorem diagram_merge_mismatch_is_fatal
    (s1 s2 : List (Option EventCollection)) (h : Heap)
    (hne : s1.length ≠ s2.length) :
    AddToEnd (.diagram s1) (.diagram s2) h = (.error .demandFail, h) ∧
    Err.catchable .demandFail = false ∧
    (∀ a : Nat, (AddToEnd (.diagram s1) (.diagram s2) h).2 a = h a) := by
  refine ⟨by simp [AddToEnd, hne], rfl, ?_⟩
  intro a
  simp [AddToEnd, hne]

/-- Claim C1, witness for the amended theorem at child counts 1 and 2. -/
theorem diagram_merge_mismatch_is_fatal_witness :
    ([some (EventCollection.leaf 0)].length ≠
      [some (EventCollection.leaf 1), some (EventCollection.leaf 2)].length) ∧
    (AddToEnd (.diagram [some (.leaf 0)])
        (.diagram [some (.leaf 1), some (.leaf 2)]) exHeap
      = (.error .demandFail, exHeap) ∧
    Err.catchable .demandFail = false ∧
    (∀ a : Nat,
      (AddToEnd (.diagram [some (.leaf 0)])
          (.diagram [some (.leaf 1), some (.leaf 2)]) exHeap).2 a = exHeap a)) :=
  ⟨by decide,
   diagram_merge_mismatch_is_fatal _ _ exHeap (by decide)⟩

/-- Claim C4, counterexample: `add_publish_event` on a structural bundle
(whose publish collection is a `DiagramEventCollection`) fails with
`std::bad_cast` — a type-mismatch error — not with the invalid-operation
(`std::logic_error`) failure the claim states. -/
theorem structural_add_event_counterexample :
    (CompositeEventCollection.add_publish_event
        (DiagramCompositeEventCollection.toComposite
          ⟨[⟨.leaf 0, .leaf 1, .leaf 2⟩]⟩) exE1 exHeap0)
      = (.error .badCast, exHeap0) ∧
    Err.badCast ≠ Err.invalidOperation := ⟨rfl, by decide⟩

/-- Claim C4, amended: `add_event` on a structural homogeneous collection
fails with the invalid-operation error (`std::logic_error`), catchable,
contents unchanged, regardless of the child count; `add_event_of_kind` on a
bundle whose per-kind collection is structural fails with a type-mismatch
error (`std::bad_cast`), catchable, contents unchanged, for each of the
three kinds and regardless of the child count. -/
theorem structural_add_event_fails :
    (∀ (slots : List (Option EventCollection)) (e : Event) (h : Heap),
      add_event (.diagram slots) e h = (.error .invalidOperation, h) ∧
      Err.catchable .invalidOperation = true) ∧
    (∀ (d : DiagramCompositeEventCollection) (e : Event) (h : Heap),
      d.toComposite.add_publish_event e h = (.error .badCast, h) ∧
      d.toComposite.add_discrete_update_event e h = (.error .badCast, h) ∧
      d.toComposite.add_unrestricted_update_event e h = (.error .badCast, h) ∧
      Err.catchable .badCast = true) := by
  refine ⟨fun slots e h => ⟨rfl, rfl⟩, fun d e h => ⟨rfl, rfl, rfl, rfl⟩⟩

/-- Claim C9: the forced-event factory returns a leaf collection holding
exactly one event, whose trigger classification is forced and which has no
attribute, data or callback. -/
theorem makeForcedEventCollection_spec :
    ∀ (a : Nat) (h : Heap),
      (MakeForcedEventCollection a h).1 = EventCollection.leaf a ∧
      get_events a (MakeForcedEventCollection a h).2 =
        [{ trigger := .kForced, attributeVal := none, dataVal := none,
           callbackVal := none }] ∧
      (get_events a (MakeForcedEventCollection a h).2).length = 1 := by
  intro a h
  refine ⟨rfl, ?_, ?_⟩ <;>
    simp [MakeForcedEventCollection, add_event, get_events, hupdate]

/-- Claim C10: immediately after construction a structural homogeneous
collection's slots are all null; under full population `HasEvents`, `Clear`
and (on a compatible operand with distinct storage) `AddToEnd` are
well-defined, never dereferencing null; and without population the code
performs no check — `Clear`, `HasEvents` and `AddToEnd` on a freshly
constructed nonempty collection dereference the null slot (undefined
behavior). -/
theorem diagram_ctor_null_slots :
    (∀ n i : Nat, i < n → subSlot (diagramCtor n) i = some none) ∧
    (∀ (t : EventCollection) (h : Heap), populatedB t = true →
      (∃ b, HasEvents t h = .ok b) ∧
      Clear t h = (.ok (), clearedHeap (leafAddrs t) h) ∧
      (∀ o : EventCollection, compatible t o = true →
        (leafAddrs t ++ leafAddrs o).Nodup →
        (AddToEnd t o h).1 = .ok ())) ∧
    (∀ (n : Nat) (h : Heap), 0 < n →
      Clear (diagramCtor n) h = (.error .nullDeref, h) ∧
      HasEvents (diagramCtor n) h = .error .nullDeref ∧
      AddToEnd (diagramCtor n) (diagramCtor n) h = (.error .nullDeref, h)) := by
  refine ⟨?_, ?_, ?_⟩
  · intro n i hi
    simp [diagramCtor, subSlot, List.get?_eq_getElem?, List.getElem?_replicate, hi]
  · intro t h hp
    refine ⟨⟨_, hasEvents_spec t h hp⟩, clear_spec t h hp, ?_⟩
    intro o hc hnd
    rw [List.nodup_append] at hnd
    rw [addToEnd_spec t o h hc hnd.1 hnd.2.2]
  · intro n h hn
    match n, hn with
    | n + 1, _ =>
      refine ⟨?_, ?_, ?_⟩ <;>
        simp [diagramCtor, List.replicate_succ, Clear, clearSlots, HasEvents,
          hasAnySlots, AddToEnd, addSlots]

/-- Claim C10, witness: fresh two-slot collection has null slots; populated
nodes support the operations; the fresh collection's `Clear` and a merge hit
the null dereference. -/
theorem diagram_ctor_null_slots_witness :
    subSlot (diagramCtor 2) 1 = some none ∧
    (∃ b, HasEvents (.leaf 0) exHeap = .ok b) ∧
    (AddToEnd (.diagram [some (.leaf 0)]) (.diagram [some (.leaf 1)]) exHeap).1
      = .ok () ∧
    Clear (diagramCtor 1) exHeap0 = (.error .nullDeref, exHeap0) :=
  ⟨diagram_ctor_null_slots.1 2 1 (by decide),
   (diagram_ctor_null_slots.2.1 (.leaf 0) exHeap (by decide)).1,
   (diagram_ctor_null_slots.2.1 (.diagram [some (.leaf 0)]) exHeap
      (by decide)).2.2 (.diagram [some (.leaf 1)]) (by decide) (by decide),
   (diagram_ctor_null_slots.2.2 1 exHeap0 (by decide)).1⟩

/-- Claim C7: a structural collection with N populated slots reports
`num_subsystems() == N`, and its `HasEvents` is the logical OR of its
children's `HasEvents`. -/
theorem diagram_num_subsystems_hasEvents (children : List EventCollection)
    (h : Heap) (hp : ∀ c ∈ children, populatedB c = true) :
    num_subsystems (.diagram (children.map some)) = children.length ∧
    HasEvents (.diagram (children.map some)) h =
      .ok (children.any (fun c => hasEventsResult c h)) := by
  have hps : populatedSlots (children.map some) = true :=
    populatedSlots_map_some children hp
  refine ⟨by simp [num_subsystems], ?_⟩
  have hs := hasEvents_spec (.diagram (children.map some)) h
    (by simpa [populatedB] using hps)
  rw [hs]
  congr 1
  have hb : hasEventsB h (.diagram (children.map some)) =
      hasEventsSlotsB h (children.map some) := by
    simp [hasEventsB]
  rw [hb, hasEventsSlotsB_map_some]
  have aux : ∀ (l : List EventCollection), (∀ c ∈ l, populatedB c = true) →
      l.any (fun c => hasEventsB h c) = l.any (fun c => hasEventsResult c h) := by
    intro l
    induction l with
    | nil => intro _; rfl
    | cons hd tl ih =>
      intro hl
      simp only [List.any_cons]
      rw [hasEventsResult_eq hd h (hl hd (by simp)),
        ih (fun c hc => hl c (by simp [hc]))]
  exact aux children hp

/-- Claim C7, witness at N = 2 with one child holding events. -/
theorem diagram_num_subsystems_hasEvents_witness :
    num_subsystems (.diagram ([EventCollection.leaf 0, .leaf 5].map some)) = 2 ∧
    HasEvents (.diagram ([EventCollection.leaf 0, .leaf 5].map some)) exHeap =
      .ok ([EventCollection.leaf 0, .leaf 5].any
        (fun c => hasEventsResult c exHeap)) :=
  ⟨(diagram_num_subsystems_hasEvents [.leaf 0, .leaf 5] exHeap (by decide)).1,
   (diagram_num_subsystems_hasEvents [.leaf 0, .leaf 5] exHeap (by decide)).2⟩

/-- Claim C8: merging a leaf operand into a leaf collection at a different
storage cell appends clones of the operand's events, produced by the
event's clone operation; the operand's own sequence is unchanged, and no
cell other than the receiver's is touched, preserving single ownership. -/
theorem leaf_merge_clones_and_preserves (a b : Nat) (h : Heap) (hab : a ≠ b) :
    AddToEnd (.leaf a) (.leaf b) h =
      (.ok (), hupdate h a (h a ++ (h b).map Event.clone)) ∧
    get_events a (AddToEnd (.leaf a) (.leaf b) h).2 =
      h a ++ (h b).map Event.clone ∧
    get_events b (AddToEnd (.leaf a) (.leaf b) h).2 = h b ∧
    (∀ x : Nat, x ≠ a → (AddToEnd (.leaf a) (.leaf b) h).2 x = h x) := by
  refine ⟨rfl, ?_, ?_, ?_⟩
  · simp [AddToEnd, get_events, hupdate]
  · simp only [AddToEnd, get_events, hupdate]
    rw [if_neg (Ne.symm hab)]
  · intro x hx
    simp only [AddToEnd, hupdate]
    rw [if_neg hx]

/-- Claim C6: after a `Clear`, `HasEvents` is false for the cleared node
and all of its descendants — for leaf and structural homogeneous
collections, for any bundle with populated per-kind collections, and for a
structural bundle's owned child bundles. -/
theorem clear_makes_hasEvents_false :
    (∀ (t : EventCollection) (h : Heap), populatedB t = true →
      (Clear t h).1 = .ok () ∧
      ∀ d ∈ descendants t, HasEvents d (Clear t h).2 = .ok false) ∧
    (∀ (c : CompositeEventCollection) (h : Heap),
      populatedB c.publish_events = true →
      populatedB c.discrete_update_events = true →
      populatedB c.unrestricted_update_events = true →
      (c.Clear h).1 = .ok () ∧
      c.HasEvents (c.Clear h).2 = .ok false ∧
      (∀ k : EventKind, ∀ d ∈ descendants (c.kindCollection k),
        HasEvents d (c.Clear h).2 = .ok false)) ∧
    (∀ (dc : DiagramCompositeEventCollection) (h : Heap),
      (∀ ch ∈ dc.owned_subevent_collection,
        populatedB ch.publish_events = true ∧
        populatedB ch.discrete_update_events = true ∧
        populatedB ch.unrestricted_update_events = true) →
      ∀ ch ∈ dc.owned_subevent_collection,
        ch.HasEvents ((dc.toComposite.Clear h).2) = .ok false) := by
  refine ⟨?_, ?_, ?_⟩
  · intro t h hp
    rw [clear_spec t h hp]
    refine ⟨rfl, ?_⟩
    intro d hd
    have hds := descendants_spec t d hd
    rw [hasEvents_spec d _ (hds.2 hp), hasEventsB_cleared d _ h hds.1]
  · intro c h hp hd hu
    rw [CompositeEventCollection.composite_clear_spec c h hp hd hu]
    refine ⟨rfl, ?_, ?_⟩
    · exact CompositeEventCollection.composite_hasEvents_cleared c _ h hp hd hu
        (fun a ha => by simp [ha]) (fun a ha => by simp [ha])
        (fun a ha => by simp [ha])
    · intro k d hdm
      have hpk : populatedB (c.kindCollection k) = true := by
        cases k <;> assumption
      have hds := descendants_spec (c.kindCollection k) d hdm
      rw [hasEvents_spec d _ (hds.2 hpk), hasEventsB_cleared]
      intro a ha
      have hmem := hds.1 a ha
      cases k <;>
        simp only [CompositeEventCollection.kindCollection] at hmem <;>
        simp [hmem]
  · intro dc h hall ch hch
    have hpub : populatedB (dc.toComposite).publish_events = true := by
      simpa [DiagramCompositeEventCollection.toComposite, populatedB] using
        populatedSlots_map_comp dc.owned_subevent_collection
          (fun c => c.publish_events) (fun c hc => (hall c hc).1)
    have hdis : populatedB (dc.toComposite).discrete_update_events = true := by
      simpa [DiagramCompositeEventCollection.toComposite, populatedB] using
        populatedSlots_map_comp dc.owned_subevent_collection
          (fun c => c.discrete_update_events) (fun c hc => (hall c hc).2.1)
    have hunr : populatedB (dc.toComposite).unrestricted_update_events = true := by
      simpa [DiagramCompositeEventCollection.toComposite, populatedB] using
        populatedSlots_map_comp dc.owned_subevent_collection
          (fun c => c.unrestricted_update_events) (fun c hc => (hall c hc).2.2)
    rw [CompositeEventCollection.composite_clear_spec _ h hpub hdis hunr]
    refine CompositeEventCollection.composite_hasEvents_cleared ch _ h
      (hall ch hch).1 (hall ch hch).2.1 (hall ch hch).2.2 ?_ ?_ ?_
    · intro a ha
      have : a ∈ leafAddrs (dc.toComposite).publish_events := by
        simp only [DiagramCompositeEventCollection.toComposite, leafAddrs,
          leafAddrsSlots_map_some, List.mem_flatten]
        exact ⟨leafAddrs ch.publish_events, List.mem_map.mpr ⟨ch, hch, rfl⟩, ha⟩
      simp [this]
    · intro a ha
      have : a ∈ leafAddrs (dc.toComposite).discrete_update_events := by
        simp only [DiagramCompositeEventCollection.toComposite, leafAddrs,
          leafAddrsSlots_map_some, List.mem_flatten]
        exact ⟨leafAddrs ch.discrete_update_events, List.mem_map.mpr ⟨ch, hch, rfl⟩, ha⟩
      simp [this]
    · intro a ha
      have : a ∈ leafAddrs (dc.toComposite).unrestricted_update_events := by
        simp only [DiagramCompositeEventCollection.toComposite, leafAddrs,
          leafAddrsSlots_map_some, List.mem_flatten]
        exact ⟨leafAddrs ch.unrestricted_update_events, List.mem_map.mpr ⟨ch, hch, rfl⟩, ha⟩
      simp [this]

/-- Claim C6, witness: a two-level structural collection, a leaf bundle and
a one-child structural bundle, each over the example heap. -/
theorem clear_makes_hasEvents_false_witness :
    ((Clear (.diagram [some (.leaf 0), some (.diagram [some (.leaf 1)])]) exHeap).1
        = .ok () ∧
      ∀ d ∈ descendants (.diagram [some (.leaf 0), some (.diagram [some (.leaf 1)])]),
        HasEvents d
          (Clear (.diagram [some (.leaf 0), some (.diagram [some (.leaf 1)])]) exHeap).2
          = .ok false) ∧
    ((CompositeEventCollection.Clear ⟨.leaf 0, .leaf 1, .leaf 2⟩ exHeap).1 = .ok () ∧
      CompositeEventCollection.HasEvents ⟨.leaf 0, .leaf 1, .leaf 2⟩
        (CompositeEventCollection.Clear ⟨.leaf 0, .leaf 1, .leaf 2⟩ exHeap).2
        = .ok false) ∧
    (∀ ch ∈ (⟨[⟨.leaf 0, .leaf 1, .leaf 2⟩]⟩ :
        DiagramCompositeEventCollection).owned_subevent_collection,
      ch.HasEvents
        (((⟨[⟨.leaf 0, .leaf 1, .leaf 2⟩]⟩ :
            DiagramCompositeEventCollection).toComposite.Clear exHeap).2)
        = .ok false) :=
  ⟨clear_makes_hasEvents_false.1
      (.diagram [some (.leaf 0), some (.diagram [some (.leaf 1)])]) exHeap (by decide),
   (fun r => ⟨r.1, r.2.1⟩)
     (clear_makes_hasEvents_false.2.1 ⟨.leaf 0, .leaf 1, .leaf 2⟩ exHeap
       (by decide) (by decide) (by decide)),
   clear_makes_hasEvents_false.2.2 ⟨[⟨.leaf 0, .leaf 1, .leaf 2⟩]⟩ exHeap
     (by decide)⟩

/-- Claim C3: merging appends the operand's sequence after the receiver's —
exactly, for leaf pairs; recursively per matched child leaf, for equal-shape
structural pairs; per kind and per child for bundles; and the result obeys
list-append associativity: merging `[e1, e2]` with `[e3]` yields
`[e1, e2, e3]`, and merging B then C into A equals merging A with
B-already-merged-with-C. -/
theorem addToEnd_concatenates :
    (∀ e : Event, Event.clone e = e) ∧
    (∀ (a b : Nat) (h : Heap),
      AddToEnd (.leaf a) (.leaf b) h =
        (.ok (), hupdate h a (h a ++ (h b).map Event.clone)) ∧
      (AddToEnd (.leaf a) (.leaf b) h).2 a = h a ++ h b) ∧
    (∀ (t o : EventCollection) (h : Heap), compatible t o = true →
      (leafAddrs t ++ leafAddrs o).Nodup →
      (AddToEnd t o h).1 = .ok () ∧
      (∀ p ∈ leafPairs t o, (AddToEnd t o h).2 p.1 = h p.1 ++ h p.2) ∧
      (∀ x : Nat, x ∉ leafAddrs t → (AddToEnd t o h).2 x = h x)) ∧
    (∀ (c o : CompositeEventCollection) (h : Heap),
      compatible c.publish_events o.publish_events = true →
      compatible c.discrete_update_events o.discrete_update_events = true →
      compatible c.unrestricted_update_events o.unrestricted_update_events = true →
      ((leafAddrs c.publish_events ++
          (leafAddrs c.discrete_update_events ++
            leafAddrs c.unrestricted_update_events)) ++
        (leafAddrs o.publish_events ++
          (leafAddrs o.discrete_update_events ++
            leafAddrs o.unrestricted_update_events))).Nodup →
      (c.AddToEnd o h).1 = .ok () ∧
      ∀ k : EventKind,
        ∀ p ∈ leafPairs (c.kindCollection k) (o.kindCollection k),
          (c.AddToEnd o h).2 p.1 = h p.1 ++ h p.2) ∧
    (∀ (a b c : Nat) (h : Heap), a ≠ b → a ≠ c → b ≠ c →
      (AddToEnd (.leaf a) (.leaf c) (AddToEnd (.leaf a) (.leaf b) h).2).2 a
        = h a ++ h b ++ h c ∧
      (AddToEnd (.leaf a) (.leaf b) (AddToEnd (.leaf b) (.leaf c) h).2).2 a
        = h a ++ (h b ++ h c) ∧
      h a ++ h b ++ h c = h a ++ (h b ++ h c)) := by
  refine ⟨Event.clone_eq, ?_, ?_, ?_, ?_⟩
  · intro a b h
    exact ⟨rfl, by simp [AddToEnd, hupdate, map_clone_id]⟩
  · intro t o h hc hnd
    rw [List.nodup_append] at hnd
    have hs := addToEnd_spec t o h hc hnd.1 hnd.2.2
    rw [hs]
    have hfst : (leafPairs t o).map Prod.fst = leafAddrs t := pairs_fst t o hc
    refine ⟨rfl, ?_, ?_⟩
    · intro p hp
      exact mergedHeap_pair _ h p.1 p.2 (by simpa using hp) (by rw [hfst]; exact hnd.1)
    · intro x hx
      exact mergedHeap_notin _ h x (by rw [hfst]; exact hx)
  · intro c o h hcp hcd hcu hnd
    have hspec :=
      CompositeEventCollection.composite_addToEnd_spec c o h hcp hcd hcu hnd
    have hok : (c.AddToEnd o h).1 = .ok () := by rw [hspec]
    have hheap : (c.AddToEnd o h).2 =
        mergedHeap (leafPairs c.unrestricted_update_events o.unrestricted_update_events)
          (mergedHeap (leafPairs c.discrete_update_events o.discrete_update_events)
            (mergedHeap (leafPairs c.publish_events o.publish_events) h)) := by
      rw [hspec]
    obtain ⟨⟨hP, hD, hU⟩, ⟨hPD, hPU, hDU⟩, ⟨hPP', hPD', hPU'⟩,
      ⟨hDP', hDD', hDU'⟩, ⟨hUP', hUD', hUU'⟩⟩ := nodup_six hnd
    have hfP := pairs_fst _ _ hcp
    have hfD := pairs_fst _ _ hcd
    have hfU := pairs_fst _ _ hcu
    have hsP := pairs_snd _ _ hcp
    have hsD := pairs_snd _ _ hcd
    have hsU := pairs_snd _ _ hcu
    refine ⟨hok, ?_⟩
    intro k p hp
    rw [hheap]
    cases k <;> simp only [CompositeEventCollection.kindCollection] at hp
    · have h1 : p.1 ∈ leafAddrs c.publish_events := by
        rw [← hfP]; exact List.mem_map_of_mem _ hp
      have h2 : p.2 ∈ leafAddrs o.publish_events := by
        rw [← hsP]; exact List.mem_map_of_mem _ hp
      rw [mergedHeap_notin _ _ p.1 (by rw [hfU]; exact fun hm => hPU h1 hm),
        mergedHeap_notin _ _ p.1 (by rw [hfD]; exact fun hm => hPD h1 hm)]
      exact mergedHeap_pair _ h p.1 p.2 (by simpa using hp) (by rw [hfP]; exact hP)
    · have h1 : p.1 ∈ leafAddrs c.discrete_update_events := by
        rw [← hfD]; exact List.mem_map_of_mem _ hp
      have h2 : p.2 ∈ leafAddrs o.discrete_update_events := by
        rw [← hsD]; exact List.mem_map_of_mem _ hp
      rw [mergedHeap_notin _ _ p.1 (by rw [hfU]; exact fun hm => hDU h1 hm)]
      rw [mergedHeap_pair _ _ p.1 p.2 (by simpa using hp) (by rw [hfD]; exact hD)]
      rw [mergedHeap_notin _ _ p.1 (by rw [hfP]; exact fun hm => hPD hm h1),
        mergedHeap_notin _ _ p.2 (by rw [hfP]; exact fun hm => hPD' hm h2)]
    · have h1 : p.1 ∈ leafAddrs c.unrestricted_update_events := by
        rw [← hfU]; exact List.mem_map_of_mem _ hp
      have h2 : p.2 ∈ leafAddrs o.unrestricted_update_events := by
        rw [← hsU]; exact List.mem_map_of_mem _ hp
      rw [mergedHeap_pair _ _ p.1 p.2 (by simpa using hp) (by rw [hfU]; exact hU)]
      rw [mergedHeap_notin _ _ p.1 (by rw [hfD]; exact fun hm => hDU hm h1),
        mergedHeap_notin _ _ p.1 (by rw [hfP]; exact fun hm => hPU hm h1),
        mergedHeap_notin _ _ p.2 (by rw [hfD]; exact fun hm => hDU' hm h2),
        mergedHeap_notin _ _ p.2 (by rw [hfP]; exact fun hm => hPU' hm h2)]
  · intro a b c h hab hac hbc
    refine ⟨?_, ?_, (List.append_assoc _ _ _)⟩
    · simp [AddToEnd, hupdate, map_clone_id, Ne.symm hac]
    · simp [AddToEnd, hupdate, map_clone_id, hab]

/-- Claim C3, witness: `[e1, e2] ++ [e3] = [e1, e2, e3]` at cells 0 and 1,
a structural merge, a bundle merge, and the associativity instance. -/
theorem addToEnd_concatenates_witness :
    Event.clone exE1 = exE1 ∧
    (AddToEnd (.leaf 0) (.leaf 1) exHeap).2 0 = exHeap 0 ++ exHeap 1 ∧
    (AddToEnd (.leaf 0) (.leaf 1) exHeap).2 0 = [exE1, exE2, exE3] ∧
    (AddToEnd (.diagram [some (.leaf 0)]) (.diagram [some (.leaf 1)]) exHeap).1
      = .ok () ∧
    (CompositeEventCollection.AddToEnd ⟨.leaf 0, .leaf 1, .leaf 2⟩
        ⟨.leaf 3, .leaf 4, .leaf 5⟩ exHeap).1 = .ok () ∧
    (AddToEnd (.leaf 0) (.leaf 2)
        (AddToEnd (.leaf 0) (.leaf 1) exHeap).2).2 0
      = exHeap 0 ++ exHeap 1 ++ exHeap 2 :=
  ⟨addToEnd_concatenates.1 exE1,
   (addToEnd_concatenates.2.1 0 1 exHeap).2,
   Eq.trans (addToEnd_concatenates.2.1 0 1 exHeap).2 (by decide),
   (addToEnd_concatenates.2.2.1 (.diagram [some (.leaf 0)])
      (.diagram [some (.leaf 1)]) exHeap (by decide) (by decide)).1,
   (addToEnd_concatenates.2.2.2.1 ⟨.leaf 0, .leaf 1, .leaf 2⟩
      ⟨.leaf 3, .leaf 4, .leaf 5⟩ exHeap (by decide) (by decide) (by decide)
      (by decide)).1,
   (addToEnd_concatenates.2.2.2.2 0 1 2 exHeap (by decide) (by decide)
      (by decide)).1⟩

/-- Claim C5: `SetFrom(other)` leaves a node in a state observationally
identical to `Clear()` immediately followed by `AddToEnd(other)` — for
homogeneous collections that is the definition (`EventCollection::SetFrom`
is literally `Clear(); AddToEnd(other);`), and for bundles the per-kind
clear/add interleaving of `SetFrom` produces the same final store as
clearing all three kinds first and then adding all three, the kinds
occupying distinct storage. -/
theorem setFrom_equals_clear_then_add :
    (∀ (t o : EventCollection) (h : Heap),
      SetFrom t o h = seqM (Clear t h) (fun h1 => AddToEnd t o h1)) ∧
    (∀ (c o : CompositeEventCollection) (h : Heap),
      compatible c.publish_events o.publish_events = true →
      compatible c.discrete_update_events o.discrete_update_events = true →
      compatible c.unrestricted_update_events o.unrestricted_update_events = true →
      ((leafAddrs c.publish_events ++
          (leafAddrs c.discrete_update_events ++
            leafAddrs c.unrestricted_update_events)) ++
        (leafAddrs o.publish_events ++
          (leafAddrs o.discrete_update_events ++
            leafAddrs o.unrestricted_update_events))).Nodup →
      c.SetFrom o h = seqM (c.Clear h) (fun h1 => c.AddToEnd o h1)) := by
  refine ⟨fun t o h => rfl, ?_⟩
  intro c o h hcp hcd hcu hnd
  obtain ⟨⟨hP, hD, hU⟩, ⟨hPD, hPU, hDU⟩, ⟨hPP', hPD', hPU'⟩,
    ⟨hDP', hDD', hDU'⟩, ⟨hUP', hUD', hUU'⟩⟩ := nodup_six hnd
  have hfP := pairs_fst _ _ hcp
  have hsP := pairs_snd _ _ hcp
  have hfD := pairs_fst _ _ hcd
  have hsD := pairs_snd _ _ hcd
  unfold CompositeEventCollection.SetFrom
  rw [setFrom_spec _ _ h hcp hP hPP']
  simp only [seqM]
  rw [setFrom_spec _ _ _ hcd hD hDD']
  simp only [seqM]
  rw [setFrom_spec _ _ _ hcu hU hUU']
  rw [CompositeEventCollection.composite_clear_spec c h
    (compatible_populated _ _ hcp).1 (compatible_populated _ _ hcd).1
    (compatible_populated _ _ hcu).1]
  simp only [seqM]
  rw [CompositeEventCollection.composite_addToEnd_spec c o _ hcp hcd hcu hnd]
  refine Prod.ext rfl ?_
  rw [← clearedHeap_append, ← clearedHeap_append]
  rw [mergedHeap_clearedHeap_comm (leafPairs c.publish_events o.publish_events)
    (leafAddrs c.unrestricted_update_events) _
    (by rw [hfP]; exact hPU.symm) (by rw [hsP]; exact hUP')]
  rw [mergedHeap_clearedHeap_comm (leafPairs c.publish_events o.publish_events)
    (leafAddrs c.discrete_update_events) _
    (by rw [hfP]; exact hPD.symm) (by rw [hsP]; exact hDP')]
  rw [mergedHeap_clearedHeap_comm
    (leafPairs c.discrete_update_events o.discrete_update_events)
    (leafAddrs c.unrestricted_update_events) _
    (by rw [hfD]; exact hDU.symm) (by rw [hsD]; exact hUD')]

/-- Claim C5, witness: a leaf bundle over cells 0, 1, 2 set from a leaf
bundle over cells 3, 4, 5, and a homogeneous instance. -/
theorem setFrom_equals_clear_then_add_witness :
    SetFrom (.leaf 0) (.leaf 1) exHeap =
      seqM (Clear (.leaf 0) exHeap) (fun h1 => AddToEnd (.leaf 0) (.leaf 1) h1) ∧
    CompositeEventCollection.SetFrom ⟨.leaf 0, .leaf 1, .leaf 2⟩
        ⟨.leaf 3, .leaf 4, .leaf 5⟩ exHeap =
      seqM (CompositeEventCollection.Clear ⟨.leaf 0, .leaf 1, .leaf 2⟩ exHeap)
        (fun h1 => CompositeEventCollection.AddToEnd ⟨.leaf 0, .leaf 1, .leaf 2⟩
          ⟨.leaf 3, .leaf 4, .leaf 5⟩ h1) :=
  ⟨setFrom_equals_clear_then_add.1 (.leaf 0) (.leaf 1) exHeap,
   setFrom_equals_clear_then_add.2 ⟨.leaf 0, .leaf 1, .leaf 2⟩
     ⟨.leaf 3, .leaf 4, .leaf 5⟩ exHeap (by decide) (by decide) (by decide)
     (by decide)⟩

/-- Claim C2: in a structural bundle of N children, for every child index
and event kind, the per-kind structural collection's slot `i` holds the very
collection owned by child bundle `i` (the same pointer structure, hence the
same storage): mutating or observing through either path is the same
operation on the store, and the per-kind view's reachable cells are exactly
the concatenation of the children's — each child's cells once, nothing
duplicated. -/
theorem diagram_composite_aliasing (d : DiagramCompositeEventCollection)
    (i : Nat) (k : EventKind) (hi : i < d.num_subsystems) :
    ∃ child : CompositeEventCollection,
      d.get_subevent_collection i = some child ∧
      subSlot (d.toComposite.kindCollection k) i
        = some (some (child.kindCollection k)) ∧
      subSlotD (d.toComposite.kindCollection k) i = child.kindCollection k ∧
      (∀ (h : Heap) (e : Event),
        add_event (subSlotD (d.toComposite.kindCollection k) i) e h
          = add_event (child.kindCollection k) e h) ∧
      (∀ h : Heap,
        HasEvents (subSlotD (d.toComposite.kindCollection k) i) h
          = HasEvents (child.kindCollection k) h) ∧
      leafAddrs (d.toComposite.kindCollection k)
        = (d.owned_subevent_collection.map
            (fun c => leafAddrs (c.kindCollection k))).flatten := by
  have hget : d.owned_subevent_collection.get? i
      = some (d.owned_subevent_collection.get ⟨i, hi⟩) := List.get?_eq_get hi
  have hmap : ∀ (f : CompositeEventCollection → EventCollection),
      (d.owned_subevent_collection.map (fun c => some (f c))).get? i
        = some (some (f (d.owned_subevent_collection.get ⟨i, hi⟩))) := by
    intro f
    rw [List.get?_eq_getElem?, List.getElem?_map, ← List.get?_eq_getElem?, hget]
    rfl
  have hslot : subSlot (d.toComposite.kindCollection k) i
      = some (some ((d.owned_subevent_collection.get ⟨i, hi⟩).kindCollection k)) := by
    cases k <;> exact hmap _
  have hD : subSlotD (d.toComposite.kindCollection k) i
      = (d.owned_subevent_collection.get ⟨i, hi⟩).kindCollection k := by
    rw [subSlotD, hslot]
    rfl
  refine ⟨d.owned_subevent_collection.get ⟨i, hi⟩, hget, hslot, hD,
    fun h e => by rw [hD], fun h => by rw [hD], ?_⟩
  cases k <;>
    simp [DiagramCompositeEventCollection.toComposite,
      CompositeEventCollection.kindCollection, leafAddrs, leafAddrsSlots_map_some]

/-- Claim C2, witness at the two-child example bundle, child 1, publish
kind. -/
theorem diagram_composite_aliasing_witness :
    (1 < exBundle2.num_subsystems) ∧
    ∃ child : CompositeEventCollection,
      exBundle2.get_subevent_collection 1 = some child ∧
      subSlot (exBundle2.toComposite.kindCollection .publish) 1
        = some (some (child.kindCollection .publish)) ∧
      subSlotD (exBundle2.toComposite.kindCollection .publish) 1
        = child.kindCollection .publish ∧
      (∀ (h : Heap) (e : Event),
        add_event (subSlotD (exBundle2.toComposite.kindCollection .publish) 1) e h
          = add_event (child.kindCollection .publish) e h) ∧
      (∀ h : Heap,
        HasEvents (subSlotD (exBundle2.toComposite.kindCollection .publish) 1) h
          = HasEvents (child.kindCollection .publish) h) ∧
      leafAddrs (exBundle2.toComposite.kindCollection .publish)
        = (exBundle2.owned_subevent_collection.map
            (fun c => leafAddrs (c.kindCollection .publish))).flatten :=
  ⟨by decide, diagram_composite_aliasing exBundle2 1 .publish (by decide)⟩

/-- Claim C8, witness at cells 0 and 1 of the example heap. -/
theorem leaf_merge_clones_and_preserves_witness :
    ((0 : Nat) ≠ 1) ∧
    (AddToEnd (.leaf 0) (.leaf 1) exHeap =
      (.ok (), hupdate exHeap 0 (exHeap 0 ++ (exHeap 1).map Event.clone)) ∧
    get_events 0 (AddToEnd (.leaf 0) (.leaf 1) exHeap).2 =
      exHeap 0 ++ (exHeap 1).map Event.clone ∧
    get_events 1 (AddToEnd (.leaf 0) (.leaf 1) exHeap).2 = exHeap 1 ∧
    (∀ x : Nat, x ≠ 0 → (AddToEnd (.leaf 0) (.leaf 1) exHeap).2 x = exHeap x)) :=
  ⟨by decide, leaf_merge_clones_and_preserves 0 1 exHeap (by decide)⟩

end DrakeEvents
